import Mathlib

/-!
Shallow embedding of the CAR inspection and completeness-decision engine of
the gateway-read-test lambda (src/car.js and the decision logic of
src/index.js), together with theorems checking the natural-language
specification against it.

Bytes are modelled as `List Nat`; content identifiers carry their codec tag
and digest and are compared structurally, as `CID.equals` does.  The external
multiformats decoders (`@ipld/dag-pb` decode, `@ipld/dag-cbor` decode plus
link extraction) are modelled by a `DecodeEnv` of oracle functions, `none`
standing for a decode that throws.  JavaScript exceptions are modelled by
`Except Err`; the unbounded recursion of `iterateDag` is modelled with an
explicit fuel argument, fuel exhaustion (`Err.stackOverflow`) standing for
the stack overflow the JavaScript recursion would hit.
-/

/-- Codec tag of `multiformats/codecs/raw` (0x55). -/
def rawCode : Nat := 0x55

/-- Codec tag of `@ipld/dag-pb` (0x70). -/
def pbCode : Nat := 0x70

/-- Codec tag of `@ipld/dag-cbor` (0x71). -/
def cborCode : Nat := 0x71

/-- Maximum permitted block size in bytes, `MAX_BLOCK_SIZE = 1 << 20` in src/car.js. -/
def MAX_BLOCK_SIZE : Nat := 1 <<< 20

/-- Size ceiling of the decision engine, `MAX_SIZE_TO_ATTEMPT = 100 * 1024 * 1024` in src/index.js. -/
def MAX_SIZE_TO_ATTEMPT : Nat := 100 * 1024 * 1024

/-- A content identifier: codec tag plus digest, compared structurally
(`cid.equals` in multiformats compares codec and digest). -/
structure Cid where
  code : Nat
  digest : List Nat
deriving DecidableEq, Repr

/-- A CAR block: a content identifier paired with raw bytes. -/
structure Block where
  cid : Cid
  bytes : List Nat
deriving DecidableEq, Repr

/-- A link of a decoded dag-pb node: child identifier, optional name and
optional declared cumulative size of the child subtree (`Tsize`). -/
structure PBLink where
  Hash : Cid
  Name : Option String
  Tsize : Option Nat
deriving DecidableEq, Repr

/-- A decoded dag-pb node: optional data plus its ordered list of links. -/
structure PBNode where
  Data : Option (List Nat)
  Links : List PBLink
deriving DecidableEq, Repr

/-- Oracles for the external codec libraries: `pbDecode` models
`@ipld/dag-pb` decode, `cborLinks` models `@ipld/dag-cbor` decode followed by
the extraction of every CID found in the decoded value (what `Block.links()`
iterates for a cbor block).  `none` models a decoder throw on malformed bytes. -/
structure DecodeEnv where
  pbDecode : List Nat → Option PBNode
  cborLinks : List Nat → Option (List Cid)

/-- The errors the engine can throw.  The first five correspond to the
`throw new Error(...)` sites of src/car.js; `decodeFailure` models a decoder
throw on malformed bytes; `noDecoder` models the TypeError raised by
`decoder.decode` when `decoders.find` returned `undefined` inside
`iterateDag`; `stackOverflow` models exhaustion of the JavaScript call stack
by the unbounded recursion (fuel exhaustion in this embedding). -/
inductive Err where
  | missingRoots
  | tooManyRoots
  | blockTooBig (size : Nat)
  | emptyCar
  | missingRootBlock
  | decodeFailure
  | noDecoder
  | stackOverflow
deriving DecidableEq, Repr

/-- The typed value of a decoded block under its codec. -/
inductive NodeValue where
  | raw
  | pb (node : PBNode)
  | cbor (links : List Cid)
deriving DecidableEq, Repr

/-- The structure verdict of the walker: the strings 'Complete' / 'Partial'
of src/car.js. -/
inductive StructureV where
  | Complete
  | Partial
deriving DecidableEq, Repr

/-- The record returned by `inspectCarBlocks`: `{ rootCid, structure, size }`.
`struct` is `none` when the walker produced no verdict (unsupported root
codec), `size` is `none` unless the root is a dag-pb node. -/
structure InspectionResult where
  rootCid : Cid
  struct : Option StructureV
  size : Option Nat
deriving DecidableEq, Repr

/-- The codec tags of `decoders = [pb, raw, cbor]` in src/car.js. -/
def decoderCodes : List Nat := [pbCode, rawCode, cborCode]

/-- Whether `decoders.find((d) => d.code === code)` finds a decoder. -/
def supportedCodec (code : Nat) : Bool := decoderCodes.contains code

/-- Dispatch of `decoder.decode(bytes)` over the decoder found for `code`:
raw bytes decode to themselves with no links, dag-pb and dag-cbor go through
the oracles, and an unsupported codec raises (`decoders.find` returned
`undefined` and `.decode` was called on it). -/
def decodeNode (env : DecodeEnv) (code : Nat) (bytes : List Nat) : Except Err NodeValue :=
  if code = pbCode then
    match env.pbDecode bytes with
    | some node => .ok (.pb node)
    | none => .error .decodeFailure
  else if code = rawCode then .ok .raw
  else if code = cborCode then
    match env.cborLinks bytes with
    | some links => .ok (.cbor links)
    | none => .error .decodeFailure
  else .error .noDecoder

/-- The links `Block.links()` yields for a decoded value: none for raw,
the link hashes in order for dag-pb, the extracted CIDs for dag-cbor. -/
def NodeValue.links : NodeValue → List Cid
  | .raw => []
  | .pb node => node.Links.map (fun l => l.Hash)
  | .cbor links => links

/-- Decode a node and take its links, as `Array.from(rBlock.links())` does. -/
def nodeLinks (env : DecodeEnv) (code : Nat) (bytes : List Nat) : Except Err (List Cid) :=
  (decodeNode env code bytes).map NodeValue.links

/-- `cumulativeSize` of src/car.js: the node's own byte length plus the sum
of the declared `Tsize` of each link, `0` when a link omits it
(`curr.Tsize || 0`). -/
def cumulativeSize (pbNodeBytes : List Nat) (pbNode : PBNode) : Nat :=
  pbNodeBytes.length + pbNode.Links.foldl (fun acc curr => acc + curr.Tsize.getD 0) 0

/-- `carStat` of src/car.js, applied to the already-streamed header roots and
block sequence: zero declared roots and more than one declared root are
rejected, otherwise the sole root becomes the archive's root identifier. -/
def carStat (roots : List Cid) (blocks : List Block) : Except Err (Cid × List Block) :=
  match roots with
  | [] => .error .missingRoots
  | [rootCid] => .ok (rootCid, blocks)
  | _ => .error .tooManyRoots

/-- The `for (const link of bLinks)` loop of `iterateDag`: look the link
target up in the block list; a missing target makes the whole walk return
`false` at once (no further link of the list is examined); a found target is
recursed into via `recurse` and a `false` or thrown error from the recursion
also stops the loop. -/
def iterateDagLinks (blocks : List Block) (recurse : Block → Except Err Bool) :
    List Cid → Except Err Bool
  | [] => .ok true
  | link :: rest =>
    match blocks.find? (fun b => b.cid == link) with
    | none => .ok false
    | some existingBlock =>
      match recurse existingBlock with
      | .error e => .error e
      | .ok false => .ok false
      | .ok true => iterateDagLinks blocks recurse rest

/-- `iterateDag` of src/car.js: decode the current block, enumerate its
links and recurse depth-first.  The `fuel` argument bounds the recursion
depth, modelling the JavaScript call stack. -/
def iterateDag (env : DecodeEnv) (blocks : List Block) : Nat → Block → Except Err Bool
  | 0, _ => .error .stackOverflow
  | fuel + 1, rawBlock =>
    match nodeLinks env rawBlock.cid.code rawBlock.bytes with
    | .error e => .error e
    | .ok bLinks => iterateDagLinks blocks (fun b => iterateDag env blocks fuel b) bLinks

/-- `inspectCarBlocks` of src/car.js.  The loop over the iterator is
rendered over the finished block list: any block above `MAX_BLOCK_SIZE`
throws (the loop reaches the first such block before any later check), the
list must be non-empty and must contain a block whose identifier equals the
root identifier (`rawRootBlock` is the first such block).  When a decoder
matches the root codec the root block is decoded, the dag-pb cumulative size
is computed for a dag-pb root, and the structure verdict is either the
single-raw-block special case or the result of the DAG walk.  When no
decoder matches, the record is returned with no verdict and no size. -/
def inspectCarBlocks (env : DecodeEnv) (fuel : Nat) (rootCid : Cid) (blocks : List Block) :
    Except Err InspectionResult :=
  match blocks.find? (fun b => decide (MAX_BLOCK_SIZE < b.bytes.length)) with
  | some b => .error (.blockTooBig b.bytes.length)
  | none =>
    if blocks.isEmpty then .error .emptyCar
    else
      match blocks.find? (fun b => b.cid == rootCid) with
      | none => .error .missingRootBlock
      | some rawRootBlock =>
        if supportedCodec rootCid.code then
          match decodeNode env rootCid.code rawRootBlock.bytes with
          | .error e => .error e
          | .ok value =>
            let size : Option Nat :=
              if rawRootBlock.cid.code = pbCode then
                match value with
                | .pb node => some (cumulativeSize rawRootBlock.bytes node)
                | _ => none
              else none
            if blocks.length = 1 ∧ rootCid.code = rawCode then
              .ok ⟨rootCid, some .Complete, size⟩
            else
              match iterateDag env blocks fuel rawRootBlock with
              | .error e => .error e
              | .ok true => .ok ⟨rootCid, some .Complete, size⟩
              | .ok false => .ok ⟨rootCid, some .Partial, size⟩
        else .ok ⟨rootCid, none, none⟩

/-- JavaScript truthiness of the optional `size` number: `!size` holds for
`undefined` and for `0`. -/
def jsFalsy : Option Nat → Bool
  | none => true
  | some n => n == 0

/-- JavaScript `a || b` over the optional structure strings, as in
`inspection.structure || metadata.structure` of src/index.js. -/
def jsOr (a b : Option StructureV) : Option StructureV :=
  match a with
  | some s => some s
  | none => b

/-- Why the decision engine deferred a fetch, matching the three early
returns of `main` in src/index.js. -/
inductive DeferReason where
  | noSize
  | tooLarge
  | stillUploading
deriving DecidableEq, Repr

/-- Outcome of the fetch-readiness decision: whether the gateway fetch is
issued, the defer reason when it is not, and whether the accumulated store
size (the S3 prefix listing of `getDirectoryStat`) was consulted. -/
structure DecideOutcome where
  fetch : Bool
  reason : Option DeferReason
  consultedStore : Bool
deriving DecidableEq, Repr

/-- The decision policy of `main` in src/index.js (the block guarded by
`structure !== 'Complete'` followed by the gateway fetch): a Complete
structure goes straight to the fetch; otherwise a falsy size defers, then a
size above `MAX_SIZE_TO_ATTEMPT` defers, and only then is the accumulated
store size fetched and compared, deferring while `size > accumSize`. -/
def decideFetch (struct : Option StructureV) (size : Option Nat) (accumSize : Nat) :
    DecideOutcome :=
  if struct = some .Complete then ⟨true, none, false⟩
  else if jsFalsy size then ⟨false, some .noSize, false⟩
  else if MAX_SIZE_TO_ATTEMPT < size.getD 0 then ⟨false, some .tooLarge, false⟩
  else if accumSize < size.getD 0 then ⟨false, some .stillUploading, true⟩
  else ⟨true, none, true⟩

/-- `inspectCar` of src/index.js, over the parsed header roots and blocks:
`carStat` then `inspectCarBlocks`, both rethrowing their errors, and the
metadata-recorded structure substituted exactly when the walker yielded no
verdict (`inspection.structure || metadata.structure`). -/
def inspectCar (env : DecodeEnv) (fuel : Nat) (roots : List Cid) (blocks : List Block)
    (metaStruct : Option StructureV) : Except Err InspectionResult :=
  match carStat roots blocks with
  | .error e => .error e
  | .ok (rootCid, blks) =>
    match inspectCarBlocks env fuel rootCid blks with
    | .error e => .error e
    | .ok inspection => .ok ⟨inspection.rootCid, jsOr inspection.struct metaStruct, inspection.size⟩

/-- A block with identifier `c` occurs in the block list. -/
def presentIn (blocks : List Block) (c : Cid) : Prop :=
  ∃ b, b ∈ blocks ∧ b.cid = c

/-- Reachability by following links, matching the walk of `iterateDag`:
`Reach env blocks c d` holds when `d` is reached from `c` by repeatedly
looking the current identifier up in the block list (first match, as
`blocks.find` does) and stepping to one of the found block's links. -/
inductive Reach (env : DecodeEnv) (blocks : List Block) : Cid → Cid → Prop where
  | refl (c : Cid) : Reach env blocks c c
  | head {c d l : Cid} {b : Block} {L : List Cid} :
      blocks.find? (fun x => x.cid == c) = some b →
      nodeLinks env b.cid.code b.bytes = .ok L →
      l ∈ L →
      Reach env blocks l d →
      Reach env blocks c d

/-! ### Concrete example inputs used for witnesses and counterexamples -/

/-- A decode environment whose dag-pb oracle yields an empty node and whose
dag-cbor oracle yields no links, for any bytes. -/
def env0 : DecodeEnv :=
  { pbDecode := fun _ => some ⟨none, []⟩
    cborLinks := fun _ => some [] }

/-- A raw-codec identifier. -/
def cidRaw0 : Cid := ⟨rawCode, [1]⟩

/-- A single raw block carrying `cidRaw0`. -/
def blockRaw0 : Block := ⟨cidRaw0, [7, 7]⟩

/-- The inspection of the one-raw-block archive. -/
def resRaw0 : InspectionResult := ⟨cidRaw0, some .Complete, none⟩

/-- A raw-codec leaf identifier used as a link target. -/
def cidLeaf : Cid := ⟨rawCode, [3]⟩

/-- A dag-pb root identifier. -/
def cidPb0 : Cid := ⟨pbCode, [2]⟩

/-- A decode environment whose dag-pb oracle decodes the bytes `[9]` to a
node with one link to `cidLeaf` of declared size 5. -/
def envPb : DecodeEnv :=
  { pbDecode := fun bs => if bs = [9] then some ⟨none, [⟨cidLeaf, some "a", some 5⟩]⟩ else none
    cborLinks := fun _ => some [] }

/-- The dag-pb root block (bytes `[9]`, one declared link). -/
def blockPb0 : Block := ⟨cidPb0, [9]⟩

/-- The inspection of the dag-pb archive missing its leaf: Partial, with
estimated size 1 + 5. -/
def resPb0 : InspectionResult := ⟨cidPb0, some .Partial, some 6⟩

/-- A dag-pb root identifier for the zero-size example. -/
def cidPbZ : Cid := ⟨pbCode, [8]⟩

/-- A decode environment whose dag-pb oracle yields a node with one link to
`cidLeaf` that declares no size, matching the zero-size scenario the claims
describe (zero-length root bytes, link sizes absent). -/
def envZero : DecodeEnv :=
  { pbDecode := fun _ => some ⟨none, [⟨cidLeaf, none, none⟩]⟩
    cborLinks := fun _ => some [] }

/-- The zero-byte dag-pb root block of the zero-size example. -/
def blockPbZ : Block := ⟨cidPbZ, []⟩

/-- An identifier whose codec tag (0x99) matches none of the three decoders. -/
def cidUnsup : Cid := ⟨0x99, [4]⟩

/-- A block carrying the unsupported-codec identifier. -/
def blockUnsup : Block := ⟨cidUnsup, [1, 2]⟩

deriving instance DecidableEq for Except

/-! ### Basic lemmas about the walk -/

/-- A block found by identifier lookup is a member with that identifier. -/
theorem find?_cid_eq {blocks : List Block} {c : Cid} {b : Block}
    (h : blocks.find? (fun x => x.cid == c) = some b) : b ∈ blocks ∧ b.cid = c := by
  refine ⟨List.mem_of_find?_eq_some h, ?_⟩
  have hp := List.find?_some h
  simpa using hp

/-- Reachability is transitive. -/
theorem Reach.trans {env : DecodeEnv} {blocks : List Block} {a b c : Cid}
    (h1 : Reach env blocks a b) (h2 : Reach env blocks b c) : Reach env blocks a c := by
  induction h1 with
  | refl => exact h2
  | head hf hl hm _ ih => exact .head hf hl hm (ih h2)

/-- If the link loop finishes with `true`, everything reachable from any of
the listed links is present (given the corresponding property for one more
level of recursion). -/
theorem iterateDagLinks_ok_true {env : DecodeEnv} {blocks : List Block} {fuel : Nat}
    (hP : ∀ b : Block, blocks.find? (fun x => x.cid == b.cid) = some b →
      iterateDag env blocks fuel b = .ok true →
      ∀ d, Reach env blocks b.cid d → presentIn blocks d) :
    ∀ links : List Cid,
      iterateDagLinks blocks (fun b => iterateDag env blocks fuel b) links = .ok true →
      ∀ l ∈ links, ∀ d, Reach env blocks l d → presentIn blocks d := by
  intro links
  induction links with
  | nil => intro _ l hl; cases hl
  | cons link rest ih =>
    intro h l' hl' d hreach
    simp only [iterateDagLinks] at h
    cases hfind : blocks.find? (fun b => b.cid == link) with
    | none => rw [hfind] at h; cases h
    | some eb =>
      simp only [hfind] at h
      cases hrec : iterateDag env blocks fuel eb with
      | error e => simp only [hrec] at h; cases h
      | ok res =>
        simp only [hrec] at h
        cases res with
        | false => cases h
        | true =>
          rcases List.mem_cons.mp hl' with hEq | hMem
          · subst hEq
            have hcid := (find?_cid_eq hfind).2
            have hfind' : blocks.find? (fun x => x.cid == l') = some eb := hfind
            rw [← hcid] at hfind' hreach
            exact hP eb hfind' hrec d hreach
          · exact ih h l' hMem d hreach

/-- If the walk of a block finishes with `true`, everything reachable from
that block's identifier is present. -/
theorem iterateDag_ok_true {env : DecodeEnv} {blocks : List Block} :
    ∀ (fuel : Nat) (b : Block),
      blocks.find? (fun x => x.cid == b.cid) = some b →
      iterateDag env blocks fuel b = .ok true →
      ∀ d, Reach env blocks b.cid d → presentIn blocks d := by
  intro fuel
  induction fuel with
  | zero => intro b _ h; cases h
  | succ f ih =>
    intro b hfind h d hreach
    simp only [iterateDag] at h
    cases hnl : nodeLinks env b.cid.code b.bytes with
    | error e => rw [hnl] at h; cases h
    | ok L =>
      rw [hnl] at h
      cases hreach with
      | refl => exact ⟨b, (find?_cid_eq hfind).1, rfl⟩
      | head hf hl hm htail =>
        rw [hfind] at hf
        cases hf
        rw [hnl] at hl
        cases hl
        exact iterateDagLinks_ok_true ih L h _ hm d htail

/-- If the link loop finishes with `false`, some listed link reaches a
missing identifier (given the corresponding property for one more level of
recursion). -/
theorem iterateDagLinks_ok_false {env : DecodeEnv} {blocks : List Block} {fuel : Nat}
    (hP : ∀ b : Block, blocks.find? (fun x => x.cid == b.cid) = some b →
      iterateDag env blocks fuel b = .ok false →
      ∃ d, Reach env blocks b.cid d ∧ ¬ presentIn blocks d) :
    ∀ links : List Cid,
      iterateDagLinks blocks (fun b => iterateDag env blocks fuel b) links = .ok false →
      ∃ l, l ∈ links ∧ ∃ d, Reach env blocks l d ∧ ¬ presentIn blocks d := by
  intro links
  induction links with
  | nil => intro h; cases h
  | cons link rest ih =>
    intro h
    simp only [iterateDagLinks] at h
    cases hfind : blocks.find? (fun b => b.cid == link) with
    | none =>
      refine ⟨link, List.mem_cons_self link rest, link, Reach.refl link, ?_⟩
      rintro ⟨b, hb, hcid⟩
      have := List.find?_eq_none.mp hfind b hb
      simp [hcid] at this
    | some eb =>
      simp only [hfind] at h
      cases hrec : iterateDag env blocks fuel eb with
      | error e => simp only [hrec] at h; cases h
      | ok res =>
        simp only [hrec] at h
        cases res with
        | false =>
          have hcid := (find?_cid_eq hfind).2
          have hfind' : blocks.find? (fun x => x.cid == eb.cid) = some eb := by
            rw [hcid]; exact hfind
          obtain ⟨d, hd, hnp⟩ := hP eb hfind' hrec
          exact ⟨link, List.mem_cons_self link rest, d, by rw [← hcid]; exact hd, hnp⟩
        | true =>
          obtain ⟨l, hl, hrest⟩ := ih h
          exact ⟨l, List.mem_cons_of_mem link hl, hrest⟩

/-- If the walk of a block finishes with `false`, something reachable from
that block's identifier is missing. -/
theorem iterateDag_ok_false {env : DecodeEnv} {blocks : List Block} :
    ∀ (fuel : Nat) (b : Block),
      blocks.find? (fun x => x.cid == b.cid) = some b →
      iterateDag env blocks fuel b = .ok false →
      ∃ d, Reach env blocks b.cid d ∧ ¬ presentIn blocks d := by
  intro fuel
  induction fuel with
  | zero => intro b _ h; cases h
  | succ f ih =>
    intro b hfind h
    simp only [iterateDag] at h
    cases hnl : nodeLinks env b.cid.code b.bytes with
    | error e => rw [hnl] at h; cases h
    | ok L =>
      rw [hnl] at h
      obtain ⟨l, hl, d, hd, hnp⟩ := iterateDagLinks_ok_false ih L h
      exact ⟨d, Reach.head hfind hnl hl hd, hnp⟩

/-- Inversion of a successful `inspectCarBlocks` run: no block was too big,
a root block was found, and the result is either the verdict-less record of
an unsupported root codec, or carries the decoded root's size and a verdict
from the single-raw-block special case or from the DAG walk. -/
theorem inspectCarBlocks_ok_inv {env : DecodeEnv} {fuel : Nat} {rootCid : Cid}
    {blocks : List Block} {r : InspectionResult}
    (h : inspectCarBlocks env fuel rootCid blocks = .ok r) :
    r.rootCid = rootCid ∧
    blocks.find? (fun b => decide (MAX_BLOCK_SIZE < b.bytes.length)) = none ∧
    ∃ rb, blocks.find? (fun b => b.cid == rootCid) = some rb ∧
      ((supportedCodec rootCid.code = false ∧ r = ⟨rootCid, none, none⟩) ∨
       (supportedCodec rootCid.code = true ∧
        ∃ value, decodeNode env rootCid.code rb.bytes = .ok value ∧
          r.size = (if rb.cid.code = pbCode then
                      match value with
                      | .pb node => some (cumulativeSize rb.bytes node)
                      | _ => none
                    else none) ∧
          (((blocks.length = 1 ∧ rootCid.code = rawCode) ∧ r.struct = some .Complete) ∨
           (¬(blocks.length = 1 ∧ rootCid.code = rawCode) ∧
            ∃ isC, iterateDag env blocks fuel rb = .ok isC ∧
              r.struct = some (if isC then StructureV.Complete else StructureV.Partial))))) := by
  unfold inspectCarBlocks at h
  cases hbig : blocks.find? (fun b => decide (MAX_BLOCK_SIZE < b.bytes.length)) with
  | some b => rw [hbig] at h; cases h
  | none =>
    rw [hbig] at h
    dsimp only at h
    by_cases hemp : blocks.isEmpty
    · rw [if_pos hemp] at h
      cases h
    · rw [if_neg hemp] at h
      cases hfind : blocks.find? (fun b => b.cid == rootCid) with
      | none => rw [hfind] at h; cases h
      | some rb =>
        rw [hfind] at h
        dsimp only at h
        by_cases hsup : supportedCodec rootCid.code
        · rw [if_pos hsup] at h
          cases hdec : decodeNode env rootCid.code rb.bytes with
          | error e => rw [hdec] at h; cases h
          | ok value =>
            rw [hdec] at h
            dsimp only at h
            by_cases hone : blocks.length = 1 ∧ rootCid.code = rawCode
            · rw [if_pos hone] at h
              cases h
              exact ⟨rfl, rfl, rb, rfl, Or.inr ⟨hsup, value, hdec, rfl, Or.inl ⟨hone, rfl⟩⟩⟩
            · rw [if_neg hone] at h
              cases hit : iterateDag env blocks fuel rb with
              | error e => rw [hit] at h; cases h
              | ok isC =>
                rw [hit] at h
                cases isC
                · cases h
                  exact ⟨rfl, rfl, rb, rfl,
                    Or.inr ⟨hsup, value, hdec, rfl, Or.inr ⟨hone, false, hit, rfl⟩⟩⟩
                · cases h
                  exact ⟨rfl, rfl, rb, rfl,
                    Or.inr ⟨hsup, value, hdec, rfl, Or.inr ⟨hone, true, hit, rfl⟩⟩⟩
        · rw [if_neg hsup] at h
          cases h
          refine ⟨rfl, rfl, rb, rfl, Or.inl ⟨?_, rfl⟩⟩
          simpa using hsup

/-- A codec is supported exactly when it is one of dag-pb, raw, dag-cbor. -/
theorem supportedCodec_iff {code : Nat} :
    supportedCodec code = true ↔ (code = pbCode ∨ code = rawCode ∨ code = cborCode) := by
  constructor
  · intro hc
    have := List.elem_iff.mp hc
    simpa [decoderCodes] using this
  · intro hc
    apply List.elem_iff.mpr
    simpa [decoderCodes] using hc

/-- C2.  For every successfully parsed archive whose root codec is raw,
dag-pb or dag-cbor, the verdict is Complete exactly when every identifier
reachable from the root has a matching block, Partial exactly when some
reachable identifier has none; and the link loop stops at a missing link:
whatever links follow it, the verdict is Partial (`.ok false`) at once. -/
theorem classify_complete_iff (env : DecodeEnv) (fuel : Nat) (rootCid : Cid)
    (blocks : List Block) (r : InspectionResult)
    (h : inspectCarBlocks env fuel rootCid blocks = .ok r)
    (hcodec : rootCid.code = rawCode ∨ rootCid.code = pbCode ∨ rootCid.code = cborCode) :
    ((r.struct = some StructureV.Complete) ↔
      ∀ d, Reach env blocks rootCid d → presentIn blocks d) ∧
    ((r.struct = some StructureV.Partial) ↔
      ¬ ∀ d, Reach env blocks rootCid d → presentIn blocks d) ∧
    (∀ (f : Nat) (l : Cid) (rest : List Cid),
      blocks.find? (fun b => b.cid == l) = none →
      iterateDagLinks blocks (fun b => iterateDag env blocks f b) (l :: rest) = .ok false) := by
  have hsup : supportedCodec rootCid.code = true := by
    rcases hcodec with h1 | h1 | h1 <;> (rw [h1]; decide)
  obtain ⟨hroot, hbig, rb, hfind, hrest⟩ := inspectCarBlocks_ok_inv h
  have hshort : ∀ (f : Nat) (l : Cid) (rest : List Cid),
      blocks.find? (fun b => b.cid == l) = none →
      iterateDagLinks blocks (fun b => iterateDag env blocks f b) (l :: rest) = .ok false := by
    intro f l rest hnone
    simp [iterateDagLinks, hnone]
  rcases hrest with ⟨hbad, _⟩ | ⟨_, value, hdec, hsize, hbranch⟩
  · rw [hsup] at hbad; cases hbad
  · have hrbcid : rb.cid = rootCid := (find?_cid_eq hfind).2
    have hfind' : blocks.find? (fun x => x.cid == rb.cid) = some rb := by
      rw [hrbcid]; exact hfind
    rcases hbranch with ⟨⟨hlen, hraw⟩, hstruct⟩ | ⟨hnot, isC, hit, hstruct⟩
    · have hall : ∀ d, Reach env blocks rootCid d → presentIn blocks d := by
        intro d hreach
        cases hreach with
        | refl => exact ⟨rb, (find?_cid_eq hfind).1, hrbcid⟩
        | head hf hl hm htail =>
          rw [hfind] at hf
          cases hf
          rw [hrbcid, hraw] at hl
          have hER : nodeLinks env rawCode rb.bytes = .ok [] := rfl
          rw [hER] at hl
          cases hl
          cases hm
      refine ⟨⟨fun _ => hall, fun _ => hstruct⟩, ⟨?_, fun hn => (hn hall).elim⟩, hshort⟩
      intro hp
      rw [hstruct] at hp
      simp at hp
    · cases isC with
      | true =>
        have hall := iterateDag_ok_true fuel rb hfind' hit
        rw [hrbcid] at hall
        simp only [if_pos rfl] at hstruct
        refine ⟨⟨fun _ => hall, fun _ => hstruct⟩, ⟨?_, fun hn => (hn hall).elim⟩, hshort⟩
        intro hp
        rw [hstruct] at hp
        simp at hp
      | false =>
        obtain ⟨d, hd, hnp⟩ := iterateDag_ok_false fuel rb hfind' hit
        rw [hrbcid] at hd
        have hnall : ¬ ∀ d, Reach env blocks rootCid d → presentIn blocks d :=
          fun hc => hnp (hc d hd)
        have hstruct' : r.struct = some StructureV.Partial := by
          rw [hstruct]; rfl
        refine ⟨⟨?_, fun hc => (hnall hc).elim⟩, ⟨fun _ => hnall, fun _ => hstruct'⟩, hshort⟩
        intro hp
        rw [hstruct'] at hp
        simp at hp

/-- Inversion of a successful `carStat`: the declared roots were exactly the
returned root, and the blocks pass through unchanged. -/
theorem carStat_ok_inv {roots : List Cid} {blocks : List Block} {c : Cid} {bs : List Block}
    (h : carStat roots blocks = .ok (c, bs)) : roots = [c] ∧ bs = blocks := by
  match roots with
  | [] => cases h
  | [r] =>
    unfold carStat at h
    cases h
    exact ⟨rfl, rfl⟩
  | r1 :: r2 :: rest => cases h

/-- Decoding under an unsupported codec raises `noDecoder`. -/
theorem decodeNode_unsupported {env : DecodeEnv} {code : Nat} {bytes : List Nat}
    (hsup : supportedCodec code = false) :
    decodeNode env code bytes = .error .noDecoder := by
  have hnot : ¬(code = pbCode ∨ code = rawCode ∨ code = cborCode) := by
    intro hc
    rw [supportedCodec_iff.mpr hc] at hsup
    cases hsup
  push_neg at hnot
  obtain ⟨h1, h2, h3⟩ := hnot
  unfold decodeNode
  rw [if_neg h1, if_neg h2, if_neg h3]

/-- A successful dag-pb decode comes from the dag-pb oracle. -/
theorem decodeNode_pb_inv {env : DecodeEnv} {bytes : List Nat} {value : NodeValue}
    (h : decodeNode env pbCode bytes = .ok value) :
    ∃ node, env.pbDecode bytes = some node ∧ value = .pb node := by
  unfold decodeNode at h
  rw [if_pos rfl] at h
  cases hd : env.pbDecode bytes with
  | none => rw [hd] at h; cases h
  | some node =>
    rw [hd] at h
    cases h
    exact ⟨node, rfl, rfl⟩

/-- Folding the declared link sizes is summing them. -/
theorem foldl_tsize_eq_sum (links : List PBLink) (a : Nat) :
    links.foldl (fun acc curr => acc + curr.Tsize.getD 0) a =
      a + (links.map (fun l => l.Tsize.getD 0)).sum := by
  induction links generalizing a with
  | nil => simp
  | cons l rest ih => simp [ih, Nat.add_assoc]

/-- Characterisation of the estimated size of a successful inspection: a
dag-pb root yields the root block's cumulative size, any other root yields
no size. -/
theorem inspect_size_char {env : DecodeEnv} {fuel : Nat} {rootCid : Cid}
    {blocks : List Block} {r : InspectionResult}
    (h : inspectCarBlocks env fuel rootCid blocks = .ok r) :
    (rootCid.code = pbCode →
      ∃ rb node, blocks.find? (fun b => b.cid == rootCid) = some rb ∧
        env.pbDecode rb.bytes = some node ∧
        r.size = some (cumulativeSize rb.bytes node)) ∧
    (rootCid.code ≠ pbCode → r.size = none) := by
  obtain ⟨hroot, hbig, rb, hfind, hrest⟩ := inspectCarBlocks_ok_inv h
  have hrbcid : rb.cid = rootCid := (find?_cid_eq hfind).2
  rcases hrest with ⟨hbad, hr⟩ | ⟨hsup, value, hdec, hsize, hbranch⟩
  · constructor
    · intro hpb
      rw [hpb] at hbad
      exact absurd hbad (by decide)
    · intro _
      rw [hr]
  · constructor
    · intro hpb
      rw [hpb] at hdec
      obtain ⟨node, hnode, hvalue⟩ := decodeNode_pb_inv hdec
      refine ⟨rb, node, hfind, hnode, ?_⟩
      rw [hsize, if_pos (by rw [hrbcid, hpb]), hvalue]
    · intro hpb
      rw [hsize, if_neg (by rw [hrbcid]; exact hpb)]

/-- `decodeNode` never raises `blockTooBig`. -/
theorem decodeNode_no_blockTooBig {env : DecodeEnv} {code : Nat} {bytes : List Nat} {s : Nat} :
    decodeNode env code bytes ≠ .error (.blockTooBig s) := by
  unfold decodeNode
  split
  · cases env.pbDecode bytes <;> simp
  · split
    · simp
    · split
      · cases env.cborLinks bytes <;> simp
      · simp

/-- The link loop never raises `blockTooBig` when the recursion it wraps
never does. -/
theorem iterateDagLinks_no_blockTooBig {blocks : List Block}
    {recurse : Block → Except Err Bool}
    (hrec : ∀ b s, recurse b ≠ .error (.blockTooBig s)) :
    ∀ (links : List Cid) (s : Nat),
      iterateDagLinks blocks recurse links ≠ .error (.blockTooBig s) := by
  intro links
  induction links with
  | nil => intro s h; cases h
  | cons l rest ih =>
    intro s h
    simp only [iterateDagLinks] at h
    cases hf : blocks.find? (fun b => b.cid == l) with
    | none => rw [hf] at h; cases h
    | some eb =>
      rw [hf] at h
      dsimp only at h
      cases hr : recurse eb with
      | error e =>
        rw [hr] at h
        injection h with he
        exact hrec eb s (he ▸ hr)
      | ok res =>
        rw [hr] at h
        cases res with
        | false => cases h
        | true => exact ih s h

/-- The DAG walk never raises `blockTooBig` (its only failures are decode
errors, the missing-decoder TypeError and stack exhaustion). -/
theorem iterateDag_no_blockTooBig {env : DecodeEnv} {blocks : List Block} :
    ∀ (fuel : Nat) (b : Block) (s : Nat),
      iterateDag env blocks fuel b ≠ .error (.blockTooBig s) := by
  intro fuel
  induction fuel with
  | zero => intro b s h; cases h
  | succ f ih =>
    intro b s h
    simp only [iterateDag] at h
    cases hnl : nodeLinks env b.cid.code b.bytes with
    | error e =>
      rw [hnl] at h
      injection h with he
      unfold nodeLinks at hnl
      cases hdn : decodeNode env b.cid.code b.bytes with
      | error e' =>
        rw [hdn] at hnl
        injection hnl with he'
        rw [he', he] at hdn
        exact decodeNode_no_blockTooBig hdn
      | ok v => rw [hdn] at hnl; cases hnl
    | ok L =>
      rw [hnl] at h
      exact iterateDagLinks_no_blockTooBig (fun b s => ih b s) L s h

/-! ### Claim theorems -/

/-- C1 counterexample.  An archive whose root identifier's codec tag (0x99)
matches none of the three decoders does NOT make the inspection abort with
an error: `inspectCarBlocks` succeeds, returning an `InspectionResult`
without a verdict (and without a size). -/
theorem unsupported_root_counterexample :
    inspectCarBlocks env0 4 cidUnsup [blockUnsup] = .ok ⟨cidUnsup, none, none⟩ ∧
    ¬ ∃ e, inspectCarBlocks env0 4 cidUnsup [blockUnsup] = .error e := by
  have h0 : inspectCarBlocks env0 4 cidUnsup [blockUnsup] = .ok ⟨cidUnsup, none, none⟩ := rfl
  refine ⟨h0, ?_⟩
  rintro ⟨e, he⟩
  rw [h0] at he
  cases he

/-- C1 amended.  An unsupported codec is fatal only for an inner node of the
walk: `iterateDag` on a block whose codec matches no decoder raises the
missing-decoder TypeError, which propagates.  For the root itself no error
is raised: `inspectCarBlocks` succeeds with no structure verdict and no
size, leaving the caller to substitute the metadata structure. -/
theorem unsupported_codec_behavior (env : DecodeEnv) (fuel : Nat) (rootCid : Cid)
    (blocks : List Block) (rb blk : Block)
    (hbig : blocks.find? (fun b => decide (MAX_BLOCK_SIZE < b.bytes.length)) = none)
    (hemp : blocks.isEmpty = false)
    (hfind : blocks.find? (fun b => b.cid == rootCid) = some rb)
    (hsup : supportedCodec rootCid.code = false)
    (hsup2 : supportedCodec blk.cid.code = false) :
    inspectCarBlocks env fuel rootCid blocks = .ok ⟨rootCid, none, none⟩ ∧
    iterateDag env blocks (fuel + 1) blk = .error .noDecoder := by
  constructor
  · unfold inspectCarBlocks
    rw [hbig]
    dsimp only
    rw [if_neg (by simp [hemp]), hfind]
    dsimp only
    rw [if_neg (by simp [hsup])]
  · have hnl : nodeLinks env blk.cid.code blk.bytes = .error .noDecoder := by
      unfold nodeLinks
      rw [decodeNode_unsupported hsup2]
      rfl
    simp only [iterateDag]
    rw [hnl]

/-- C1 witness: the amended behaviour at the concrete unsupported-codec
archive. -/
theorem unsupported_codec_behavior_witness :
    ([blockUnsup].find? (fun b => decide (MAX_BLOCK_SIZE < b.bytes.length)) = none) ∧
    ([blockUnsup].isEmpty = false) ∧
    ([blockUnsup].find? (fun b => b.cid == cidUnsup) = some blockUnsup) ∧
    (supportedCodec cidUnsup.code = false) ∧
    (inspectCarBlocks env0 3 cidUnsup [blockUnsup] = .ok ⟨cidUnsup, none, none⟩ ∧
     iterateDag env0 [blockUnsup] 4 blockUnsup = .error .noDecoder) :=
  ⟨rfl, rfl, rfl, rfl,
    unsupported_codec_behavior env0 3 cidUnsup [blockUnsup] blockUnsup blockUnsup
      rfl rfl rfl rfl rfl⟩

/-- C2 witness: the classification characterisation at the concrete
one-raw-block archive. -/
theorem classify_complete_iff_witness :
    (inspectCarBlocks env0 4 cidRaw0 [blockRaw0] = .ok resRaw0) ∧
    (cidRaw0.code = rawCode ∨ cidRaw0.code = pbCode ∨ cidRaw0.code = cborCode) ∧
    (((resRaw0.struct = some StructureV.Complete) ↔
        ∀ d, Reach env0 [blockRaw0] cidRaw0 d → presentIn [blockRaw0] d) ∧
     ((resRaw0.struct = some StructureV.Partial) ↔
        ¬ ∀ d, Reach env0 [blockRaw0] cidRaw0 d → presentIn [blockRaw0] d) ∧
     (∀ (f : Nat) (l : Cid) (rest : List Cid),
        [blockRaw0].find? (fun b => b.cid == l) = none →
        iterateDagLinks [blockRaw0] (fun b => iterateDag env0 [blockRaw0] f b) (l :: rest) =
          .ok false)) :=
  ⟨rfl, Or.inl rfl,
    classify_complete_iff env0 4 cidRaw0 [blockRaw0] resRaw0 rfl (Or.inl rfl)⟩

/-- C3.  The estimated size of a dag-pb-rooted archive equals the root
block's byte length plus the sum of the declared link sizes (0 for an
omitted size); a non-dag-pb root yields no size at all; and for a fixed
root identifier and fixed root-block bytes the estimate does not depend on
which other blocks are present. -/
theorem estimate_size_spec :
    (∀ (env : DecodeEnv) (fuel : Nat) (rootCid : Cid) (blocks : List Block)
        (r : InspectionResult),
      inspectCarBlocks env fuel rootCid blocks = .ok r →
      (rootCid.code = pbCode →
        ∃ rb node, blocks.find? (fun b => b.cid == rootCid) = some rb ∧
          env.pbDecode rb.bytes = some node ∧
          r.size = some (rb.bytes.length + (node.Links.map (fun l => l.Tsize.getD 0)).sum)) ∧
      (rootCid.code ≠ pbCode → r.size = none)) ∧
    (∀ (env : DecodeEnv) (fuel fuel' : Nat) (rootCid : Cid) (blocks blocks' : List Block)
        (r r' : InspectionResult) (rb rb' : Block),
      inspectCarBlocks env fuel rootCid blocks = .ok r →
      inspectCarBlocks env fuel' rootCid blocks' = .ok r' →
      blocks.find? (fun b => b.cid == rootCid) = some rb →
      blocks'.find? (fun b => b.cid == rootCid) = some rb' →
      rb.bytes = rb'.bytes →
      r.size = r'.size) := by
  constructor
  · intro env fuel rootCid blocks r h
    obtain ⟨hpb, hnpb⟩ := inspect_size_char h
    refine ⟨?_, hnpb⟩
    intro hc
    obtain ⟨rb, node, hfind, hnode, hsize⟩ := hpb hc
    refine ⟨rb, node, hfind, hnode, ?_⟩
    rw [hsize]
    unfold cumulativeSize
    rw [foldl_tsize_eq_sum, Nat.zero_add]
  · intro env fuel fuel' rootCid blocks blocks' r r' rb rb' h h' hfind hfind' hbytes
    obtain ⟨hpb, hnpb⟩ := inspect_size_char h
    obtain ⟨hpb', hnpb'⟩ := inspect_size_char h'
    by_cases hc : rootCid.code = pbCode
    · obtain ⟨rb1, node1, hfind1, hnode1, hsize1⟩ := hpb hc
      obtain ⟨rb1', node1', hfind1', hnode1', hsize1'⟩ := hpb' hc
      rw [hfind] at hfind1
      rw [hfind'] at hfind1'
      cases hfind1
      cases hfind1'
      rw [hbytes] at hnode1
      rw [hnode1'] at hnode1
      cases hnode1
      rw [hsize1, hsize1', hbytes]
    · rw [hnpb hc, hnpb' hc]

/-- C3 witness: the size characterisation at the concrete dag-pb archive
whose root declares one link of size 5 over 1 byte of root data. -/
theorem estimate_size_spec_witness :
    (inspectCarBlocks envPb 4 cidPb0 [blockPb0] = .ok resPb0) ∧
    ((cidPb0.code = pbCode →
        ∃ rb node, [blockPb0].find? (fun b => b.cid == cidPb0) = some rb ∧
          envPb.pbDecode rb.bytes = some node ∧
          resPb0.size = some (rb.bytes.length + (node.Links.map (fun l => l.Tsize.getD 0)).sum)) ∧
     (cidPb0.code ≠ pbCode → resPb0.size = none)) :=
  ⟨rfl, estimate_size_spec.1 envPb 4 cidPb0 [blockPb0] resPb0 rfl⟩

/-- C4.  A Complete structure verdict always decides Attempt (the gateway
fetch is issued), whatever the size and accumulated store size, without
consulting the store. -/
theorem decide_complete_attempts (size : Option Nat) (accumSize : Nat) :
    decideFetch (some StructureV.Complete) size accumSize = ⟨true, none, false⟩ := rfl

/-- C5.  With a Partial verdict and a known size above the fixed 100 MiB
ceiling the engine defers, whatever the accumulated store size — the store
is not even consulted, the ceiling being checked first. -/
theorem decide_too_large_defers (n accumSize : Nat) (h : MAX_SIZE_TO_ATTEMPT < n) :
    decideFetch (some StructureV.Partial) (some n) accumSize = ⟨false, some .tooLarge, false⟩ ∧
    MAX_SIZE_TO_ATTEMPT = 104857600 := by
  refine ⟨?_, rfl⟩
  have hne : ¬ n = 0 := by omega
  simp [decideFetch, jsFalsy, hne, h]

/-- C5 witness: deferral at one byte above the ceiling, with the store
already holding at least that much. -/
theorem decide_too_large_defers_witness :
    MAX_SIZE_TO_ATTEMPT < 104857601 ∧
    (decideFetch (some StructureV.Partial) (some 104857601) 204857601 =
        ⟨false, some .tooLarge, false⟩ ∧
     MAX_SIZE_TO_ATTEMPT = 104857600) :=
  ⟨by decide, decide_too_large_defers 104857601 204857601 (by decide)⟩

/-- C6 counterexample.  It is not true that with a Partial verdict and a
defined size of at most 100 MiB the engine attempts exactly when the
accumulated store size reaches the estimate: at size 0 (and any store
size, here 5 ≥ 0) the engine defers through the no-size branch, because
JavaScript `!size` also holds for 0. -/
theorem decide_small_size_counterexample :
    ¬ (∀ (n accumSize : Nat), n ≤ MAX_SIZE_TO_ATTEMPT →
        ((decideFetch (some StructureV.Partial) (some n) accumSize).fetch = true ↔
          n ≤ accumSize)) := by
  intro hclaim
  have h := (hclaim 0 5 (by decide)).mpr (by decide)
  exact absurd h (by decide)

/-- C6 amended.  With a Partial verdict: an undefined size defers through
the no-size branch; a defined POSITIVE size of at most 100 MiB attempts
exactly when the accumulated store size reaches the estimate, deferring
otherwise; a defined size of 0 is treated like an undefined one (JavaScript
`!size`), deferring through the no-size branch. -/
theorem decide_partial_size_compare (n accumSize : Nat)
    (hpos : 0 < n) (hle : n ≤ MAX_SIZE_TO_ATTEMPT) :
    ((decideFetch (some StructureV.Partial) (some n) accumSize).fetch = true ↔
      n ≤ accumSize) ∧
    decideFetch (some StructureV.Partial) none accumSize = ⟨false, some .noSize, false⟩ ∧
    decideFetch (some StructureV.Partial) (some 0) accumSize = ⟨false, some .noSize, false⟩ := by
  refine ⟨?_, rfl, rfl⟩
  have hne : ¬ n = 0 := by omega
  by_cases hcmp : accumSize < n
  · simp [decideFetch, jsFalsy, hne, Nat.not_lt.mpr hle, hcmp]
  · simp [decideFetch, jsFalsy, hne, Nat.not_lt.mpr hle, hcmp]
    omega

/-- C6 witness: at size 10 with exactly 10 bytes accumulated the engine
attempts. -/
theorem decide_partial_size_compare_witness :
    0 < 10 ∧ 10 ≤ MAX_SIZE_TO_ATTEMPT ∧
    ((((decideFetch (some StructureV.Partial) (some 10) 10).fetch = true) ↔ 10 ≤ 10) ∧
     decideFetch (some StructureV.Partial) none 10 = ⟨false, some .noSize, false⟩ ∧
     decideFetch (some StructureV.Partial) (some 0) 10 = ⟨false, some .noSize, false⟩) :=
  ⟨by decide, by decide, decide_partial_size_compare 10 10 (by decide) (by decide)⟩

/-- C7.  A successful `inspectCar` run takes the walker's verdict whenever
the walker produced one, and substitutes the metadata-recorded structure
exactly when the walker yielded none — which happens exactly when the
root's codec matches none of the three decoders. -/
theorem structure_fallback_spec (env : DecodeEnv) (fuel : Nat) (roots : List Cid)
    (blocks : List Block) (metaStruct : Option StructureV) (out : InspectionResult)
    (h : inspectCar env fuel roots blocks metaStruct = .ok out) :
    ∃ rootCid inspection,
      carStat roots blocks = .ok (rootCid, blocks) ∧
      inspectCarBlocks env fuel rootCid blocks = .ok inspection ∧
      (∀ s, inspection.struct = some s → out.struct = some s) ∧
      (inspection.struct = none → out.struct = metaStruct) ∧
      (inspection.struct = none ↔ supportedCodec rootCid.code = false) := by
  unfold inspectCar at h
  cases hcs : carStat roots blocks with
  | error e => rw [hcs] at h; cases h
  | ok p =>
    obtain ⟨rootCid, blks⟩ := p
    obtain ⟨hroots, hblks⟩ := carStat_ok_inv hcs
    rw [hblks] at hcs
    rw [hcs] at h
    dsimp only at h
    cases hib : inspectCarBlocks env fuel rootCid blocks with
    | error e => rw [hib] at h; cases h
    | ok inspection =>
      rw [hib] at h
      cases h
      refine ⟨rootCid, inspection, by rw [hblks], hib, ?_, ?_, ?_⟩
      · intro s hs
        simp [jsOr, hs]
      · intro hs
        simp [jsOr, hs]
      · obtain ⟨_, _, rb, _, hrest⟩ := inspectCarBlocks_ok_inv hib
        constructor
        · intro hnone
          rcases hrest with ⟨hs, _⟩ | ⟨_, _, _, _, hbr⟩
          · exact hs
          · exfalso
            rcases hbr with ⟨_, hstru⟩ | ⟨_, _, _, hstru⟩ <;>
              (rw [hstru] at hnone; cases hnone)
        · intro hs
          rcases hrest with ⟨_, hr⟩ | ⟨hs', _⟩
          · rw [hr]
          · rw [hs] at hs'
            cases hs'

/-- C7 witness: the fallback characterisation at the concrete one-raw-block
archive with metadata recording Partial (the walker's Complete wins). -/
theorem structure_fallback_spec_witness :
    (inspectCar env0 4 [cidRaw0] [blockRaw0] (some StructureV.Partial) = .ok resRaw0) ∧
    (∃ rootCid inspection,
      carStat [cidRaw0] [blockRaw0] = .ok (rootCid, [blockRaw0]) ∧
      inspectCarBlocks env0 4 rootCid [blockRaw0] = .ok inspection ∧
      (∀ s, inspection.struct = some s → resRaw0.struct = some s) ∧
      (inspection.struct = none → resRaw0.struct = some StructureV.Partial) ∧
      (inspection.struct = none ↔ supportedCodec rootCid.code = false)) :=
  ⟨rfl,
    structure_fallback_spec env0 4 [cidRaw0] [blockRaw0] (some StructureV.Partial) resRaw0 rfl⟩

/-- C8.  Parsing fails with the missing-roots error exactly on a zero-root
header, with the too-many-roots error exactly on a multi-root header, and a
single declared root becomes the archive's root identifier with no error. -/
theorem carStat_root_count_spec (roots : List Cid) (blocks : List Block) :
    (carStat roots blocks = .error .missingRoots ↔ roots = []) ∧
    (carStat roots blocks = .error .tooManyRoots ↔ 1 < roots.length) ∧
    (∀ r, roots = [r] → carStat roots blocks = .ok (r, blocks)) := by
  match roots with
  | [] =>
    refine ⟨by simp [carStat], ⟨by simp [carStat], by simp⟩, ?_⟩
    intro r hr
    cases hr
  | [r1] =>
    refine ⟨by simp [carStat], ⟨by simp [carStat], by simp⟩, ?_⟩
    intro r hr
    cases hr
    rfl
  | r1 :: r2 :: rest =>
    refine ⟨by simp [carStat], ⟨?_, ?_⟩, ?_⟩
    · intro _
      simp only [List.length_cons]
      omega
    · intro _
      rfl
    · intro r hr
      simp at hr

/-- C8 witness: the root-count characterisation at a concrete two-root
header, including the single-root success for the one-root header. -/
theorem carStat_root_count_spec_witness :
    ((carStat [cidRaw0, cidPb0] [blockRaw0] = .error .missingRoots ↔ [cidRaw0, cidPb0] = []) ∧
     (carStat [cidRaw0, cidPb0] [blockRaw0] = .error .tooManyRoots ↔
        1 < [cidRaw0, cidPb0].length) ∧
     (∀ r, [cidRaw0, cidPb0] = [r] → carStat [cidRaw0, cidPb0] [blockRaw0] = .ok (r, [blockRaw0]))) ∧
    carStat [cidRaw0] [blockRaw0] = .ok (cidRaw0, [blockRaw0]) :=
  ⟨carStat_root_count_spec [cidRaw0, cidPb0] [blockRaw0],
   (carStat_root_count_spec [cidRaw0] [blockRaw0]).2.2 cidRaw0 rfl⟩

/-- C9.  The inspection fails with the block-too-big error exactly when some
block's byte length strictly exceeds the 1 MiB ceiling (1,048,576 bytes); a
block of exactly 1,048,576 bytes never triggers it. -/
theorem block_too_large_iff (env : DecodeEnv) (fuel : Nat) (rootCid : Cid)
    (blocks : List Block) :
    ((∃ s, inspectCarBlocks env fuel rootCid blocks = .error (.blockTooBig s)) ↔
      ∃ b, b ∈ blocks ∧ MAX_BLOCK_SIZE < b.bytes.length) ∧
    MAX_BLOCK_SIZE = 1048576 := by
  refine ⟨?_, rfl⟩
  constructor
  · rintro ⟨s, hs⟩
    unfold inspectCarBlocks at hs
    cases hbig : blocks.find? (fun b => decide (MAX_BLOCK_SIZE < b.bytes.length)) with
    | some b =>
      have hmem := List.mem_of_find?_eq_some hbig
      have hp := List.find?_some hbig
      exact ⟨b, hmem, of_decide_eq_true hp⟩
    | none =>
      exfalso
      rw [hbig] at hs
      dsimp only at hs
      by_cases hemp : blocks.isEmpty
      · rw [if_pos hemp] at hs; cases hs
      · rw [if_neg hemp] at hs
        cases hfind : blocks.find? (fun b => b.cid == rootCid) with
        | none => rw [hfind] at hs; cases hs
        | some rb =>
          rw [hfind] at hs
          dsimp only at hs
          by_cases hsup : supportedCodec rootCid.code
          · rw [if_pos hsup] at hs
            cases hdec : decodeNode env rootCid.code rb.bytes with
            | error e =>
              rw [hdec] at hs
              injection hs with he
              rw [he] at hdec
              exact decodeNode_no_blockTooBig hdec
            | ok value =>
              rw [hdec] at hs
              dsimp only at hs
              by_cases hone : blocks.length = 1 ∧ rootCid.code = rawCode
              · rw [if_pos hone] at hs; cases hs
              · rw [if_neg hone] at hs
                cases hit : iterateDag env blocks fuel rb with
                | error e =>
                  rw [hit] at hs
                  injection hs with he
                  rw [he] at hit
                  exact iterateDag_no_blockTooBig fuel rb s hit
                | ok isC =>
                  rw [hit] at hs
                  cases isC <;> cases hs
          · rw [if_neg hsup] at hs; cases hs
  · rintro ⟨b, hmem, hlen⟩
    unfold inspectCarBlocks
    cases hbig : blocks.find? (fun b => decide (MAX_BLOCK_SIZE < b.bytes.length)) with
    | some b' => exact ⟨b'.bytes.length, rfl⟩
    | none =>
      exfalso
      have hnone := List.find?_eq_none.mp hbig b hmem
      simp at hnone
      exact absurd hlen (by simpa using hnone)

/-- C9 witness: the characterisation at a concrete archive holding one block
of 1,048,577 bytes. -/
theorem block_too_large_iff_witness :
    ((∃ s, inspectCarBlocks env0 1 cidRaw0 [⟨cidRaw0, List.replicate 1048577 0⟩] =
        .error (.blockTooBig s)) ↔
      ∃ b, b ∈ [(⟨cidRaw0, List.replicate 1048577 0⟩ : Block)] ∧
        MAX_BLOCK_SIZE < b.bytes.length) ∧
    MAX_BLOCK_SIZE = 1048576 :=
  block_too_large_iff env0 1 cidRaw0 [⟨cidRaw0, List.replicate 1048577 0⟩]

/-- C10.  When the inspection's estimated size is exactly 0 and the
structure verdict is Partial, the decision engine defers through the
no-size branch, never consulting the accumulated store size: a zero size is
indistinguishable from an absent one (JavaScript `!size`). -/
theorem decide_zero_size_as_absent (env : DecodeEnv) (fuel : Nat) (rootCid : Cid)
    (blocks : List Block) (r : InspectionResult) (accumSize : Nat)
    (h : inspectCarBlocks env fuel rootCid blocks = .ok r)
    (hsize : r.size = some 0) (hstruct : r.struct = some StructureV.Partial) :
    decideFetch r.struct r.size accumSize = ⟨false, some .noSize, false⟩ ∧
    decideFetch r.struct r.size accumSize = decideFetch r.struct none accumSize := by
  rw [hsize, hstruct]
  exact ⟨rfl, rfl⟩

/-- C10 witness: the concrete zero-byte dag-pb root whose only link declares
no size — its inspection carries estimated size 0 and verdict Partial, and
the engine defers through the no-size branch. -/
theorem decide_zero_size_as_absent_witness :
    (inspectCarBlocks envZero 4 cidPbZ [blockPbZ] =
        .ok ⟨cidPbZ, some StructureV.Partial, some 0⟩) ∧
    ((⟨cidPbZ, some StructureV.Partial, some 0⟩ : InspectionResult).size = some 0) ∧
    ((⟨cidPbZ, some StructureV.Partial, some 0⟩ : InspectionResult).struct =
        some StructureV.Partial) ∧
    (decideFetch (some StructureV.Partial) (some 0) 7 = ⟨false, some .noSize, false⟩ ∧
     decideFetch (some StructureV.Partial) (some 0) 7 =
       decideFetch (some StructureV.Partial) none 7) :=
  ⟨rfl, rfl, rfl,
    decide_zero_size_as_absent envZero 4 cidPbZ [blockPbZ]
      ⟨cidPbZ, some StructureV.Partial, some 0⟩ 7 rfl rfl rfl⟩
